import Mathlib

/-!
Verification development for the StreamFreely media-streaming proxy.

The JavaScript sources (`src/services/tokenService.js`, `src/services/driveService.js`,
`src/routes/api.js` and the serverless handler) are shallowly embedded below.
JavaScript strings are modelled as `List Char`, millisecond clock readings as `Nat`
(JS `Date.now()` is always non-negative; the one subtraction the code performs,
`now - cached.timestamp`, is only compared `< bound`, and truncated `Nat`
subtraction gives the same verdict as the JS signed subtraction there).
The SHA-256 hex digest supplied by node's `crypto` module is external to the
repository, so the embedding is parameterised by a digest function
`hash : Str → Str` together with the fact that hex digests consist of
hexadecimal characters.
-/

namespace StreamFreely

/-- JavaScript strings are modelled as lists of characters. -/
abbrev Str := List Char

/-- `leadsWith pat s` : `s` starts with the pattern `pat` (models `String.startsWith`). -/
def leadsWith : Str → Str → Bool
  | [], _ => true
  | _ :: _, [] => false
  | p :: ps, c :: cs => p = c && leadsWith ps cs

/-- `splitOnC sep s` models JavaScript `s.split(sep)` for a single-character
separator: `"".split(c) = [""]`, separators at the ends produce empty fields. -/
def splitOnC (sep : Char) : Str → List Str
  | [] => [[]]
  | c :: cs =>
    if c = sep then [] :: splitOnC sep cs
    else
      match splitOnC sep cs with
      | [] => [[c]]
      | p :: ps => (c :: p) :: ps

/-- `joinWith sep parts` models `parts.join(sep)`. -/
def joinWith (sep : Char) : List Str → Str
  | [] => []
  | [p] => p
  | p :: ps => p ++ sep :: joinWith sep ps

theorem splitOnC_ne_nil (sep : Char) (s : Str) : splitOnC sep s ≠ [] := by
  cases s with
  | nil => simp [splitOnC]
  | cons c cs =>
    simp only [splitOnC]
    split
    · simp
    · split <;> simp

theorem splitOnC_eq_single {sep : Char} {s : Str} (h : sep ∉ s) :
    splitOnC sep s = [s] := by
  induction s with
  | nil => rfl
  | cons c cs ih =>
    simp only [List.mem_cons, not_or] at h
    have hc : ¬(c = sep) := fun hc => h.1 hc.symm
    rw [splitOnC, if_neg hc, ih h.2]

theorem splitOnC_append_sep {sep : Char} {a : Str} (b : Str) (h : sep ∉ a) :
    splitOnC sep (a ++ sep :: b) = a :: splitOnC sep b := by
  induction a with
  | nil => simp [splitOnC]
  | cons c cs ih =>
    simp only [List.mem_cons, not_or] at h
    have hc : ¬(c = sep) := fun hc => h.1 hc.symm
    rw [List.cons_append, splitOnC, if_neg hc, ih h.2]

theorem splitOnC_join {sep : Char} {parts : List Str}
    (hne : parts ≠ []) (hfree : ∀ p ∈ parts, sep ∉ p) :
    splitOnC sep (joinWith sep parts) = parts := by
  induction parts with
  | nil => exact absurd rfl hne
  | cons p ps ih =>
    cases ps with
    | nil =>
      simpa [joinWith] using splitOnC_eq_single (hfree p (by simp))
    | cons q qs =>
      have hstep : joinWith sep (p :: q :: qs) = p ++ sep :: joinWith sep (q :: qs) := rfl
      rw [hstep, splitOnC_append_sep _ (hfree p (by simp))]
      rw [ih (by simp) (fun r hr => hfree r (List.mem_cons_of_mem _ hr))]

/-! ### Base-62 encoding (`tokenService.js` / `numToBase62`, `base62ToNum`) -/

/-- The base-62 alphabet from `tokenService.js`. -/
def base62Chars : Str :=
  "0123456789ABCDEFGHIJKLMNOPQRSTUVWXYZabcdefghijklmnopqrstuvwxyz".toList

/-- Character used for the base-62 digit `d`. -/
def digit62 (d : Nat) : Char := base62Chars.getD d ' '

/-- Index of a character in the base-62 alphabet; `-1` when absent, as JS
`indexOf` returns `-1` for missing characters. -/
def idx62 (c : Char) : Int :=
  match base62Chars.findIdx? (· = c) with
  | some i => (i : Int)
  | none => -1

/-- The `while (num > 0)` loop of `numToBase62`, fueled so that it is
structurally recursive (`fuel ≥ num` always lets it run to completion because
each iteration divides by 62). -/
def numToBase62Aux : Nat → Nat → Str → Str
  | _, 0, acc => acc
  | 0, _ + 1, acc => acc
  | fuel + 1, n + 1, acc => numToBase62Aux fuel ((n + 1) / 62) (digit62 ((n + 1) % 62) :: acc)

/-- `numToBase62` from `tokenService.js`: `0 ↦ "0"`, otherwise repeated
division by 62. -/
def numToBase62 (n : Nat) : Str :=
  if n = 0 then ['0'] else numToBase62Aux n n []

/-- `base62ToNum` from `tokenService.js`: left fold `acc*62 + indexOf c`.
The result is an `Int` because JS `indexOf` contributes `-1` for characters
outside the alphabet. -/
def base62ToNum (s : Str) : Int :=
  s.foldl (fun acc c => acc * 62 + idx62 c) 0

theorem idx62_digit62 {d : Nat} (hd : d < 62) : idx62 (digit62 d) = (d : Int) := by
  interval_cases d <;> decide

theorem digit62_ne_dot {d : Nat} (hd : d < 62) : digit62 d ≠ '.' := by
  interval_cases d <;> decide

theorem digit62_ne_dash {d : Nat} (hd : d < 62) : digit62 d ≠ '-' := by
  interval_cases d <;> decide

/-- Value of the digit string produced so far, as pushed onto an accumulator. -/
def pushNat62 (a : Int) : Nat → Int
  | 0 => a
  | n + 1 => pushNat62 a ((n + 1) / 62) * 62 + (((n + 1) % 62 : Nat) : Int)
termination_by n => n
decreasing_by exact Nat.div_lt_self (Nat.succ_pos n) (by norm_num)

theorem foldl_numToBase62Aux (fuel : Nat) :
    ∀ n acc a, n ≤ fuel →
      (numToBase62Aux fuel n acc).foldl (fun acc c => acc * 62 + idx62 c) a
        = acc.foldl (fun acc c => acc * 62 + idx62 c) (pushNat62 a n) := by
  induction fuel with
  | zero =>
    intro n acc a hn
    have hn0 : n = 0 := Nat.le_zero.mp hn
    subst hn0
    simp only [numToBase62Aux, pushNat62]
  | succ fuel ih =>
    intro n acc a hn
    match n with
    | 0 => simp only [numToBase62Aux, pushNat62]
    | m + 1 =>
      simp only [numToBase62Aux, pushNat62]
      rw [ih ((m + 1) / 62) _ _ (by
        have := Nat.div_lt_self (Nat.succ_pos m) (show 1 < 62 by norm_num)
        omega)]
      simp only [List.foldl_cons]
      rw [idx62_digit62 (Nat.mod_lt _ (by norm_num))]

theorem pushNat62_zero (n : Nat) : pushNat62 0 n = (n : Int) := by
  induction n using Nat.strong_induction_on with
  | _ n ih =>
    match n with
    | 0 => simp only [pushNat62, Nat.cast_zero]
    | m + 1 =>
      simp only [pushNat62]
      rw [ih ((m + 1) / 62) (Nat.div_lt_self (Nat.succ_pos m) (by norm_num))]
      omega

/-- Round trip: decoding the base-62 rendering of `n` gives back `n`. -/
theorem base62ToNum_numToBase62 (n : Nat) : base62ToNum (numToBase62 n) = (n : Int) := by
  by_cases h : n = 0
  · subst h; decide
  · unfold base62ToNum numToBase62
    rw [if_neg h, foldl_numToBase62Aux n n [] 0 (Nat.le_refl n)]
    simpa using pushNat62_zero n

theorem numToBase62Aux_mem (fuel : Nat) :
    ∀ n acc (c : Char), c ∈ numToBase62Aux fuel n acc →
      c ∈ acc ∨ ∃ d, d < 62 ∧ c = digit62 d := by
  induction fuel with
  | zero =>
    intro n acc c h
    match n with
    | 0 => exact Or.inl h
    | _ + 1 => exact Or.inl h
  | succ fuel ih =>
    intro n acc c h
    match n with
    | 0 => exact Or.inl h
    | m + 1 =>
      simp only [numToBase62Aux] at h
      rcases ih ((m + 1) / 62) _ c h with hmem | hdig
      · rcases List.mem_cons.mp hmem with heq | htl
        · exact Or.inr ⟨(m + 1) % 62, Nat.mod_lt _ (by norm_num), heq⟩
        · exact Or.inl htl
      · exact Or.inr hdig

/-- The base-62 rendering of a number never contains a `'.'`. -/
theorem dot_not_mem_numToBase62 (n : Nat) : '.' ∉ numToBase62 n := by
  intro h
  unfold numToBase62 at h
  split at h
  · simp at h
  · rcases numToBase62Aux_mem n n [] '.' h with h' | ⟨d, hd, he⟩
    · simp at h'
    · exact digit62_ne_dot hd he.symm

/-! ### Decimal rendering and `parseInt`

JavaScript renders numbers into template literals in decimal and parses `Range`
header fields with `parseInt(str, 10)`.  `natToDigits10` models the decimal
rendering of a non-negative integer, `intRepr` of a signed one, and
`jsParseInt` models `parseInt` (skip whitespace, optional sign, longest digit
prefix, `NaN` — here `none` — when no digit is found). -/

/-- Character for a decimal digit. -/
def digit10 (d : Nat) : Char := Char.ofNat ('0'.toNat + d)

/-- Accumulator loop for decimal rendering, fueled so that it is structurally
recursive (`fuel ≥ n` lets it run to completion). -/
def natToDigits10Aux : Nat → Nat → Str → Str
  | _, 0, acc => acc
  | 0, _ + 1, acc => acc
  | fuel + 1, n + 1, acc => natToDigits10Aux fuel ((n + 1) / 10) (digit10 ((n + 1) % 10) :: acc)

/-- Decimal rendering of a non-negative integer, as JS string conversion does. -/
def natToDigits10 (n : Nat) : Str :=
  if n = 0 then ['0'] else natToDigits10Aux n n []

/-- Decimal rendering of a signed integer (`${n}` in a template literal). -/
def intRepr (i : Int) : Str :=
  if i < 0 then '-' :: natToDigits10 i.natAbs else natToDigits10 i.toNat

/-- Rendering of a JS number that may be `NaN` (modelled as `none`). -/
def numRepr (o : Option Int) : Str :=
  match o with
  | none => "NaN".toList
  | some i => intRepr i

/-- ASCII decimal digit test (`parseInt` digit set for radix 10). -/
def isDigit10 (c : Char) : Bool := '0' ≤ c && c ≤ '9'

/-- JS whitespace skipped by `parseInt`. -/
def isJsSpace (c : Char) : Bool :=
  c = ' ' || c = '\t' || c = '\n' || c = '\r' || c = '\x0b' || c = '\x0c'

/-- Value of a non-empty string of decimal digits. -/
def digitsVal10 (s : Str) : Int :=
  s.foldl (fun acc c => acc * 10 + ((c.toNat - '0'.toNat : Nat) : Int)) 0

/-- Longest decimal-digit prefix interpreted as a number; `none` when there is
no leading digit (the `NaN` outcome of `parseInt`). -/
def jsParseIntCore (u : Str) : Option Int :=
  let ds := u.takeWhile isDigit10
  if ds = [] then none else some (digitsVal10 ds)

/-- `parseInt(s, 10)`: skip leading whitespace, optional `+`/`-` sign, then the
longest prefix of decimal digits; `none` models `NaN`. -/
def jsParseInt (s : Str) : Option Int :=
  match s.dropWhile isJsSpace with
  | [] => none
  | c :: rest =>
    if c = '-' then (jsParseIntCore rest).map (fun n => -n)
    else if c = '+' then jsParseIntCore rest
    else jsParseIntCore (c :: rest)

/-- Accumulator value for the decimal round-trip proof. -/
def pushNat10 (a : Int) : Nat → Int
  | 0 => a
  | n + 1 => pushNat10 a ((n + 1) / 10) * 10 + (((n + 1) % 10 : Nat) : Int)
termination_by n => n
decreasing_by exact Nat.div_lt_self (Nat.succ_pos n) (by norm_num)

theorem digit10_isDigit {d : Nat} (hd : d < 10) : isDigit10 (digit10 d) = true := by
  interval_cases d <;> decide

theorem digit10_val {d : Nat} (hd : d < 10) : (digit10 d).toNat - '0'.toNat = d := by
  interval_cases d <;> decide

theorem digit10_not_space {d : Nat} (hd : d < 10) : isJsSpace (digit10 d) = false := by
  interval_cases d <;> decide

theorem digit10_ne_dash {d : Nat} (hd : d < 10) : digit10 d ≠ '-' := by
  interval_cases d <;> decide

theorem digit10_ne_dot {d : Nat} (hd : d < 10) : digit10 d ≠ '.' := by
  interval_cases d <;> decide

theorem digit10_ne_plus {d : Nat} (hd : d < 10) : digit10 d ≠ '+' := by
  interval_cases d <;> decide

theorem natToDigits10Aux_mem (fuel : Nat) :
    ∀ n acc (c : Char), c ∈ natToDigits10Aux fuel n acc →
      c ∈ acc ∨ ∃ d, d < 10 ∧ c = digit10 d := by
  induction fuel with
  | zero =>
    intro n acc c h
    match n with
    | 0 => exact Or.inl h
    | _ + 1 => exact Or.inl h
  | succ fuel ih =>
    intro n acc c h
    match n with
    | 0 => exact Or.inl h
    | m + 1 =>
      simp only [natToDigits10Aux] at h
      rcases ih ((m + 1) / 10) _ c h with hmem | hdig
      · rcases List.mem_cons.mp hmem with heq | htl
        · exact Or.inr ⟨(m + 1) % 10, Nat.mod_lt _ (by norm_num), heq⟩
        · exact Or.inl htl
      · exact Or.inr hdig

/-- Every character of the decimal rendering is a decimal digit. -/
theorem natToDigits10_all_digits {n : Nat} {c : Char} (h : c ∈ natToDigits10 n) :
    ∃ d, d < 10 ∧ c = digit10 d := by
  unfold natToDigits10 at h
  split at h
  · simp at h
    exact ⟨0, by norm_num, h⟩
  · rcases natToDigits10Aux_mem n n [] c h with h' | h'
    · simp at h'
    · exact h'

theorem natToDigits10Aux_ne_nil (fuel : Nat) :
    ∀ n (acc : Str), acc ≠ [] → natToDigits10Aux fuel n acc ≠ [] := by
  induction fuel with
  | zero =>
    intro n acc hacc
    match n with
    | 0 => simpa only [natToDigits10Aux] using hacc
    | _ + 1 => simpa only [natToDigits10Aux] using hacc
  | succ fuel ih =>
    intro n acc hacc
    match n with
    | 0 => simpa only [natToDigits10Aux] using hacc
    | m + 1 =>
      simp only [natToDigits10Aux]
      exact ih _ _ (by simp)

theorem natToDigits10_ne_nil (n : Nat) : natToDigits10 n ≠ [] := by
  unfold natToDigits10
  split
  · simp
  · next hn =>
    match n, hn with
    | m + 1, _ =>
      simp only [natToDigits10Aux]
      exact natToDigits10Aux_ne_nil m _ _ (by simp)

theorem foldl_natToDigits10Aux (fuel : Nat) :
    ∀ n acc a, n ≤ fuel →
      (natToDigits10Aux fuel n acc).foldl
          (fun acc c => acc * 10 + ((c.toNat - '0'.toNat : Nat) : Int)) a
        = acc.foldl (fun acc c => acc * 10 + ((c.toNat - '0'.toNat : Nat) : Int))
            (pushNat10 a n) := by
  induction fuel with
  | zero =>
    intro n acc a hn
    have hn0 : n = 0 := Nat.le_zero.mp hn
    subst hn0
    simp only [natToDigits10Aux, pushNat10]
  | succ fuel ih =>
    intro n acc a hn
    match n with
    | 0 => simp only [natToDigits10Aux, pushNat10]
    | m + 1 =>
      simp only [natToDigits10Aux, pushNat10]
      rw [ih ((m + 1) / 10) _ _ (by
        have := Nat.div_lt_self (Nat.succ_pos m) (show 1 < 10 by norm_num)
        omega)]
      simp only [List.foldl_cons]
      rw [digit10_val (Nat.mod_lt _ (by norm_num))]

theorem pushNat10_zero (n : Nat) : pushNat10 0 n = (n : Int) := by
  induction n using Nat.strong_induction_on with
  | _ n ih =>
    match n with
    | 0 => simp only [pushNat10, Nat.cast_zero]
    | m + 1 =>
      simp only [pushNat10]
      rw [ih ((m + 1) / 10) (Nat.div_lt_self (Nat.succ_pos m) (by norm_num))]
      omega

theorem digitsVal10_natToDigits10 (n : Nat) : digitsVal10 (natToDigits10 n) = (n : Int) := by
  by_cases h : n = 0
  · subst h; decide
  · unfold digitsVal10 natToDigits10
    rw [if_neg h, foldl_natToDigits10Aux n n [] 0 (Nat.le_refl n)]
    simpa using pushNat10_zero n

/-- `parseInt` of the decimal rendering of `n` recovers `n`. -/
theorem jsParseInt_natToDigits10 (n : Nat) : jsParseInt (natToDigits10 n) = some (n : Int) := by
  have hdig : ∀ c ∈ natToDigits10 n, isDigit10 c = true := by
    intro c hc
    rcases natToDigits10_all_digits hc with ⟨d, hd, he⟩
    exact he ▸ digit10_isDigit hd
  have hws : (natToDigits10 n).dropWhile isJsSpace = natToDigits10 n := by
    rcases hm : natToDigits10 n with _ | ⟨c, cs⟩
    · rfl
    · rw [List.dropWhile_cons]
      have : isJsSpace c = false := by
        rcases natToDigits10_all_digits (hm ▸ List.mem_cons_self c cs) with ⟨d, hd, he⟩
        exact he ▸ digit10_not_space hd
      simp [this]
  have htake : (natToDigits10 n).takeWhile isDigit10 = natToDigits10 n :=
    List.takeWhile_eq_self_iff.mpr hdig
  rcases hm : natToDigits10 n with _ | ⟨c, cs⟩
  · exact absurd hm (natToDigits10_ne_nil n)
  · rcases natToDigits10_all_digits (hm ▸ List.mem_cons_self c cs) with ⟨d, hd, he⟩
    have hne1 : ¬(c = '-') := he ▸ digit10_ne_dash hd
    have hne2 : ¬(c = '+') := he ▸ digit10_ne_plus hd
    rw [hm] at hws htake
    unfold jsParseInt
    simp only [hws, if_neg hne1, if_neg hne2]
    unfold jsParseIntCore
    simp only [htake, if_neg (List.cons_ne_nil c cs)]
    rw [← hm, digitsVal10_natToDigits10]

/-! ### Token service (`src/services/tokenService.js`)

`generateToken` / `decodeToken` with the in-memory `tokenCache`.  The SHA-256
hex digest from node's `crypto` module is external to the repository, so the
functions are parameterised by `hash : Str → Str` (modelling
`createHash('sha256').update(s).digest('hex')`); `HexDigest hash` records that
hex digests consist of lowercase hexadecimal characters. -/

/-- The characters a SHA-256 hex digest is made of. -/
def hexChars : Str := "0123456789abcdef".toList

/-- Structural fact about the external digest used by the proofs. -/
def HexDigest (hash : Str → Str) : Prop :=
  ∀ s : Str, ∀ c ∈ hash s, c ∈ hexChars

/-- The quality-compression object `{original:'o', '1080p':'h', ...}`. -/
def qualityToChar : List (Str × Char) :=
  [("original".toList, 'o'), ("1080p".toList, 'h'), ("720p".toList, 'm'),
   ("480p".toList, 's'), ("360p".toList, 'l')]

/-- `compressQuality`: object lookup with fallback `'o'`. -/
def compressQuality (quality : Str) : Char :=
  ((qualityToChar.find? (fun p => p.1 = quality)).map (fun p => p.2)).getD 'o'

/-- The inverse object `{o:'original', h:'1080p', ...}`. -/
def charToQuality : List (Char × Str) :=
  [('o', "original".toList), ('h', "1080p".toList), ('m', "720p".toList),
   ('s', "480p".toList), ('l', "360p".toList)]

/-- `decompressQuality`: object lookup with fallback `"original"`. -/
def decompressQuality (c : Char) : Str :=
  ((charToQuality.find? (fun p => p.1 = c)).map (fun p => p.2)).getD "original".toList

/-- The five recognized quality selectors. -/
def validQualities : List Str :=
  ["original".toList, "1080p".toList, "720p".toList, "480p".toList, "360p".toList]

/-- One entry of the `tokenCache` map. -/
structure CacheEntry where
  fileId : Str
  quality : Str
  timestamp : Nat
  deriving DecidableEq, Repr

/-- The `tokenCache` JS `Map`, as an insertion-ordered association list. -/
abbrev TokenCache := List (Str × CacheEntry)

/-- `tokenCache.get(tok)` / `tokenCache.has(tok)`. -/
def cacheGet (cache : TokenCache) (tok : Str) : Option CacheEntry :=
  (cache.find? (fun p => p.1 = tok)).map (fun p => p.2)

/-- `tokenCache.set(tok, e)`: replace in place if present, else append. -/
def cacheSet (cache : TokenCache) (tok : Str) (e : CacheEntry) : TokenCache :=
  if (cache.find? (fun p => p.1 = tok)).isSome then
    cache.map (fun p => if p.1 = tok then (tok, e) else p)
  else
    cache ++ [(tok, e)]

/-- `tokenCache.delete(tok)`. -/
def cacheDelete (cache : TokenCache) (tok : Str) : TokenCache :=
  cache.filter (fun p => ¬p.1 = tok)

/-- `this.tokenExpiry = 24 * 60 * 60 * 1000`. -/
def tokenExpiry : Nat := 24 * 60 * 60 * 1000

/-- `generateToken(fileId, quality)` evaluated at clock reading `now`
(milliseconds).  Returns the token together with the cache after the
`tokenCache.set` call. -/
def generateToken (hash : Str → Str) (secret fileId quality : Str) (now : Nat)
    (cache : TokenCache) : Str × TokenCache :=
  let expiryHours := (now + tokenExpiry) / 3600000
  let expiryBase62 := numToBase62 expiryHours
  let qualityChar := compressQuality quality
  let sigData := fileId ++ ':' :: quality ++ ':' :: natToDigits10 expiryHours ++ ':' :: secret
  let signature := (hash sigData).take 6
  let token := fileId ++ '.' :: qualityChar :: expiryBase62 ++ '.' :: signature
  (token, cacheSet cache token ⟨fileId, quality, now⟩)

/-- The cache-independent part of `decodeToken`: parse `fileId.qExpiry.sig`,
check the expiry hour, recompute and compare the signature. -/
def statelessDecode (hash : Str → Str) (secret : Str) (now : Nat) (token : Str) :
    Option (Str × Str) :=
  let parts := splitOnC '.' token
  if parts.length ≠ 3 then none
  else
    let fileId := parts.getD 0 []
    let qExpiry := parts.getD 1 []
    let providedSig := parts.getD 2 []
    let quality := match qExpiry with
      | [] => "original".toList
      | c :: _ => decompressQuality c
    let expiryHours := base62ToNum (qExpiry.drop 1)
    if (((now / 3600000 : Nat) : Int)) > expiryHours then none
    else
      let sigData := fileId ++ ':' :: quality ++ ':' :: intRepr expiryHours ++ ':' :: secret
      let expectedSig := (hash sigData).take 6
      if providedSig ≠ expectedSig then none
      else some (fileId, quality)

/-- `decodeToken(token)` at clock reading `now`: cache probe first (an entry
younger than `tokenExpiry` is returned as-is, a stale one is deleted), then the
stateless parse/verify path, which re-caches the decoded data with a fresh
timestamp on success.  Returns the decode result and the updated cache. -/
def decodeToken (hash : Str → Str) (secret : Str) (cache : TokenCache) (now : Nat)
    (token : Str) : Option (Str × Str) × TokenCache :=
  let step : TokenCache → Option (Str × Str) × TokenCache := fun c =>
    match statelessDecode hash secret now token with
    | none => (none, c)
    | some r => (some r, cacheSet c token ⟨r.1, r.2, now⟩)
  match cacheGet cache token with
  | some e =>
    if now - e.timestamp < tokenExpiry then (some (e.fileId, e.quality), cache)
    else step (cacheDelete cache token)
  | none => step cache

/-! ### Round-trip facts about the token codec -/

theorem hexChars_no_dot : '.' ∉ hexChars := by decide

theorem sig_no_dot {hash : Str → Str} (hh : HexDigest hash) (s : Str) :
    '.' ∉ (hash s).take 6 := by
  intro h
  exact hexChars_no_dot (hh s '.' (List.mem_of_mem_take h))

theorem compressQuality_ne_dot (q : Str) : compressQuality q ≠ '.' := by
  unfold compressQuality
  cases h : qualityToChar.find? (fun p => p.1 = q) with
  | none => decide
  | some p =>
    have hp := List.mem_of_find?_eq_some h
    fin_cases hp <;> decide

theorem decompress_compress {q : Str} (hq : q ∈ validQualities) :
    decompressQuality (compressQuality q) = q := by
  fin_cases hq <;> decide

theorem splitOnC_token {fileId qE sig : Str}
    (h1 : '.' ∉ fileId) (h2 : '.' ∉ qE) (h3 : '.' ∉ sig) :
    splitOnC '.' (fileId ++ '.' :: qE ++ '.' :: sig) = [fileId, qE, sig] := by
  rw [List.append_assoc, List.cons_append, splitOnC_append_sep _ h1,
    splitOnC_append_sep _ h2, splitOnC_eq_single h3]

theorem intRepr_natCast (n : Nat) : intRepr ((n : Nat) : Int) = natToDigits10 n := by
  unfold intRepr
  rw [if_neg (by omega)]
  simp

/-- The middle token field `qualityChar :: expiryBase62` contains no `'.'`. -/
theorem qExpiry_no_dot (quality : Str) (E : Nat) :
    '.' ∉ compressQuality quality :: numToBase62 E := by
  intro h
  rcases List.mem_cons.mp h with h | h
  · exact compressQuality_ne_dot quality h.symm
  · exact dot_not_mem_numToBase62 E h

/-- `statelessDecode` applied to a token built exactly as `generateToken`
builds it: accepted before the expiry hour has passed, rejected after. -/
theorem statelessDecode_mk {hash : Str → Str} (hh : HexDigest hash)
    (secret fileId quality : Str) (E now : Nat)
    (hfid : '.' ∉ fileId) (hq : quality ∈ validQualities) :
    statelessDecode hash secret now
        (fileId ++ '.' :: compressQuality quality :: numToBase62 E ++ '.' ::
          (hash (fileId ++ ':' :: quality ++ ':' :: natToDigits10 E ++ ':' :: secret)).take 6)
      = if E < now / 3600000 then none else some (fileId, quality) := by
  unfold statelessDecode
  rw [splitOnC_token hfid (qExpiry_no_dot quality E) (sig_no_dot hh _)]
  simp only [List.length_cons, List.length_nil, List.getD_cons_zero, List.getD_cons_succ,
    List.drop_one, List.tail_cons, ne_eq, OfNat.ofNat_ne_zero]
  rw [if_neg (by decide)]
  simp only [decompress_compress hq, base62ToNum_numToBase62]
  by_cases hlt : E < now / 3600000
  · rw [if_pos (by exact_mod_cast hlt), if_pos hlt]
  · rw [if_neg (by exact_mod_cast hlt), if_neg hlt]
    rw [intRepr_natCast]
    rw [if_neg (by simp)]

/-- `decodeToken` on a fresh service right after `generateToken`: the result is
`some (fileId, quality)` through the expiry hour and `none` afterwards. -/
theorem decodeToken_generateToken_eq {hash : Str → Str} (hh : HexDigest hash)
    (secret fileId quality : Str) (g t : Nat) (hfid : '.' ∉ fileId)
    (hq : quality ∈ validQualities) :
    (decodeToken hash secret (generateToken hash secret fileId quality g []).2 t
        (generateToken hash secret fileId quality g []).1).1
      = if (g + tokenExpiry) / 3600000 < t / 3600000 then none
        else some (fileId, quality) := by
  have hset : ∀ (tok : Str) (e : CacheEntry), cacheGet (cacheSet [] tok e) tok = some e := by
    intro tok e
    have h1 : cacheSet [] tok e = [(tok, e)] := by
      unfold cacheSet
      rw [List.find?_nil]
      rfl
    rw [h1]
    unfold cacheGet
    rw [List.find?_cons_of_pos _ (by simp)]
    rfl
  have hget : cacheGet (generateToken hash secret fileId quality g []).2
      (generateToken hash secret fileId quality g []).1
      = some ⟨fileId, quality, g⟩ := hset _ _
  unfold decodeToken
  rw [hget]
  simp only
  by_cases hfresh : t - g < tokenExpiry
  · rw [if_pos hfresh]
    have : ¬((g + tokenExpiry) / 3600000 < t / 3600000) := by
      have ht : t < g + tokenExpiry := by omega
      exact Nat.not_lt.mpr (Nat.div_le_div_right (Nat.le_of_lt ht))
    rw [if_neg this]
  · rw [if_neg hfresh]
    have htok : (generateToken hash secret fileId quality g []).1
        = fileId ++ '.' :: compressQuality quality :: numToBase62 ((g + tokenExpiry) / 3600000)
            ++ '.' :: (hash (fileId ++ ':' :: quality ++ ':' ::
              natToDigits10 ((g + tokenExpiry) / 3600000) ++ ':' :: secret)).take 6 := rfl
    rw [htok, statelessDecode_mk hh secret fileId quality _ t hfid hq]
    by_cases hexp : (g + tokenExpiry) / 3600000 < t / 3600000
    · simp only [if_pos hexp]
    · simp only [if_neg hexp]

/-- A concrete digest stand-in (constant hex output) used to instantiate
witnesses and counterexamples; every structural fact the development assumes
about real SHA-256 hex digests (`HexDigest`) holds for it. -/
def hashStub : Str → Str := fun _ => "0a1b2c3d".toList

theorem hashStub_hex : HexDigest hashStub := by
  intro s c hc
  have hc' : c ∈ "0a1b2c3d".toList := hc
  fin_cases hc' <;> decide

/-- C1: for every non-empty `fileId` containing no `'.'` and every recognized
quality, decoding the token produced by `generateToken` at any time before the
token's expiry boundary returns exactly `(fileId, quality)`. -/
theorem C1_generate_decode_roundtrip {hash : Str → Str} (secret fileId quality : Str)
    (g t : Nat) (hh : HexDigest hash) (h1 : fileId ≠ []) (h2 : '.' ∉ fileId)
    (hq : quality ∈ validQualities)
    (ht : t < ((g + tokenExpiry) / 3600000 + 1) * 3600000) :
    (decodeToken hash secret (generateToken hash secret fileId quality g []).2 t
        (generateToken hash secret fileId quality g []).1).1
      = some (fileId, quality) := by
  rw [decodeToken_generateToken_eq hh secret fileId quality g t h2 hq]
  rw [if_neg (by omega)]

theorem C1_generate_decode_roundtrip_witness :
    (decodeToken hashStub "s".toList
        (generateToken hashStub "s".toList "f".toList "720p".toList 0 []).2 3600000
        (generateToken hashStub "s".toList "f".toList "720p".toList 0 []).1).1
      = some ("f".toList, "720p".toList) :=
  C1_generate_decode_roundtrip "s".toList "f".toList "720p".toList 0 3600000
    hashStub_hex (by decide) (by decide) (by decide) (by decide)

/-- C3: a token issued at `g` carries the expiry boundary
`B = ((g + 24h)/1h + 1) * 1h`; `decodeToken` returns `none` at any simulated
time strictly after `B` and the decoded pair at any time before `B`. -/
theorem C3_expiry_boundary {hash : Str → Str} (secret fileId quality : Str) (g t : Nat)
    (hh : HexDigest hash) (h2 : '.' ∉ fileId) (hq : quality ∈ validQualities) :
    (((g + tokenExpiry) / 3600000 + 1) * 3600000 < t →
      (decodeToken hash secret (generateToken hash secret fileId quality g []).2 t
          (generateToken hash secret fileId quality g []).1).1 = none) ∧
    (t < ((g + tokenExpiry) / 3600000 + 1) * 3600000 →
      (decodeToken hash secret (generateToken hash secret fileId quality g []).2 t
          (generateToken hash secret fileId quality g []).1).1
        = some (fileId, quality)) := by
  constructor
  · intro hafter
    rw [decodeToken_generateToken_eq hh secret fileId quality g t h2 hq]
    rw [if_pos (by omega)]
  · intro hbefore
    rw [decodeToken_generateToken_eq hh secret fileId quality g t h2 hq]
    rw [if_neg (by omega)]

theorem C3_expiry_boundary_witness :
    ((decodeToken hashStub "s".toList
        (generateToken hashStub "s".toList "f".toList "original".toList 0 []).2 90000001
        (generateToken hashStub "s".toList "f".toList "original".toList 0 []).1).1 = none) ∧
    ((decodeToken hashStub "s".toList
        (generateToken hashStub "s".toList "f".toList "original".toList 0 []).2 89999999
        (generateToken hashStub "s".toList "f".toList "original".toList 0 []).1).1
      = some ("f".toList, "original".toList)) :=
  ⟨(C3_expiry_boundary "s".toList "f".toList "original".toList 0 90000001
      hashStub_hex (by decide) (by decide)).1 (by decide),
   (C3_expiry_boundary "s".toList "f".toList "original".toList 0 89999999
      hashStub_hex (by decide) (by decide)).2 (by decide)⟩

/-! ### C4: tampering with the signature segment -/

/-- The string the token signature is computed over
(`${fileId}:${quality}:${expiryHours}:${secret}`). -/
def tokenSigData (secret fileId quality : Str) (g : Nat) : Str :=
  fileId ++ ':' :: quality ++ ':' :: natToDigits10 ((g + tokenExpiry) / 3600000) ++ ':' :: secret

/-- The 6-character signature segment of a token issued at `g`. -/
def tokenSig (hash : Str → Str) (secret fileId quality : Str) (g : Nat) : Str :=
  (hash (tokenSigData secret fileId quality g)).take 6

/-- The token issued at `g` with position `i` of its signature segment
overwritten by the character `c`. -/
def flipSigToken (hash : Str → Str) (secret fileId quality : Str) (g i : Nat) (c : Char) : Str :=
  fileId ++ '.' :: compressQuality quality :: numToBase62 ((g + tokenExpiry) / 3600000)
    ++ '.' :: (tokenSig hash secret fileId quality g).set i c

theorem generateToken_fst (hash : Str → Str) (secret fileId quality : Str) (g : Nat)
    (cache : TokenCache) :
    (generateToken hash secret fileId quality g cache).1
      = fileId ++ '.' :: compressQuality quality :: numToBase62 ((g + tokenExpiry) / 3600000)
          ++ '.' :: tokenSig hash secret fileId quality g := rfl

theorem statelessDecode_not3 {hash : Str → Str} {secret : Str} {now : Nat} {token : Str}
    (h : (splitOnC '.' token).length ≠ 3) :
    statelessDecode hash secret now token = none := by
  unfold statelessDecode
  rw [if_pos h]

/-- General form of the parse/verify path: dot-free signature field `sigP`
against the correctly built payload. -/
theorem statelessDecode_sigP {hash : Str → Str}
    (secret fileId quality : Str) (E now : Nat) (sigP : Str)
    (hfid : '.' ∉ fileId) (hq : quality ∈ validQualities) (hsp : '.' ∉ sigP) :
    statelessDecode hash secret now
        (fileId ++ '.' :: compressQuality quality :: numToBase62 E ++ '.' :: sigP)
      = if E < now / 3600000 then none
        else if sigP ≠ (hash (fileId ++ ':' :: quality ++ ':' :: natToDigits10 E ++ ':' :: secret)).take 6
        then none
        else some (fileId, quality) := by
  unfold statelessDecode
  rw [splitOnC_token hfid (qExpiry_no_dot quality E) hsp]
  simp only [List.length_cons, List.length_nil, List.getD_cons_zero, List.getD_cons_succ,
    List.drop_one, List.tail_cons, ne_eq]
  rw [if_neg (by decide)]
  simp only [decompress_compress hq, base62ToNum_numToBase62]
  by_cases hlt : E < now / 3600000
  · rw [if_pos (by exact_mod_cast hlt), if_pos hlt]
  · rw [if_neg (by exact_mod_cast hlt), if_neg hlt, intRepr_natCast]

/-- `l.set i c` decomposed as take/cons/drop (used for the `'.'`-flip case). -/
theorem list_set_decomp {α : Type} (l : List α) (i : Nat) (c : α) (h : i < l.length) :
    l.set i c = l.take i ++ c :: l.drop (i + 1) := by
  induction l generalizing i with
  | nil => simp at h
  | cons x xs ih =>
    cases i with
    | zero => simp
    | succ j =>
      simp only [List.set_cons_succ, List.take_succ_cons, List.drop_succ_cons, List.cons_append]
      rw [ih j (by simpa using h)]

theorem list_set_getElemQ {α : Type} :
    ∀ (l : List α) (i : Nat) (c : α), i < l.length → (l.set i c)[i]? = some c := by
  intro l
  induction l with
  | nil => intro i c h; simp at h
  | cons x xs ih =>
    intro i c h
    cases i with
    | zero => simp
    | succ j => simpa using ih j c (by simpa using h)

theorem list_set_ne {α : Type} (l : List α) (i : Nat) (c : α) (h : i < l.length)
    (hc : c ≠ l.get ⟨i, h⟩) : l.set i c ≠ l := by
  intro heq
  have h1 : (l.set i c)[i]? = some c := list_set_getElemQ l i c h
  rw [heq, List.getElem?_eq_getElem h] at h1
  exact hc (by simpa [List.get_eq_getElem] using h1.symm)

/-- C4: flipping any single character of an issued token's signature segment
(the third dot-separated field) to a different character makes `decodeToken`
return Invalid (`none`), at every verification time. -/
theorem C4_signature_flip {hash : Str → Str} (secret fileId quality : Str)
    (g t i : Nat) (c : Char) (hh : HexDigest hash) (h2 : '.' ∉ fileId)
    (hq : quality ∈ validQualities)
    (hi : i < (tokenSig hash secret fileId quality g).length)
    (hc : c ≠ (tokenSig hash secret fileId quality g).get ⟨i, hi⟩) :
    (decodeToken hash secret (generateToken hash secret fileId quality g []).2 t
        (flipSigToken hash secret fileId quality g i c)).1 = none := by
  have hsig : '.' ∉ tokenSig hash secret fileId quality g := sig_no_dot hh _
  have hsne : (tokenSig hash secret fileId quality g).set i c
      ≠ tokenSig hash secret fileId quality g := list_set_ne _ i c hi hc
  have htokne : flipSigToken hash secret fileId quality g i c
      ≠ (generateToken hash secret fileId quality g []).1 := by
    rw [generateToken_fst]
    unfold flipSigToken
    intro heq
    have h3 := List.append_cancel_left heq
    exact hsne (List.cons_injective h3)
  have hcget : cacheGet (generateToken hash secret fileId quality g []).2
      (flipSigToken hash secret fileId quality g i c) = none := by
    have hcache : (generateToken hash secret fileId quality g []).2
        = [((generateToken hash secret fileId quality g []).1,
            ⟨fileId, quality, g⟩)] := by
      show cacheSet [] _ _ = _
      unfold cacheSet
      rw [List.find?_nil]
      rfl
    rw [hcache]
    unfold cacheGet
    rw [List.find?_cons_of_neg _ (by
        simp only [decide_eq_true_eq]
        exact fun h => htokne h.symm), List.find?_nil]
    rfl
  have hstateless : statelessDecode hash secret t
      (flipSigToken hash secret fileId quality g i c) = none := by
    by_cases hdot : c = '.'
    · subst hdot
      have hdecomp := list_set_decomp (tokenSig hash secret fileId quality g) i '.' hi
      have htk : '.' ∉ (tokenSig hash secret fileId quality g).take i :=
        fun hmem => hsig (List.take_subset i _ hmem)
      have hdr : '.' ∉ (tokenSig hash secret fileId quality g).drop (i + 1) :=
        fun hmem => hsig (List.drop_subset (i + 1) _ hmem)
      apply statelessDecode_not3
      unfold flipSigToken
      rw [hdecomp, List.append_assoc, List.cons_append,
        splitOnC_append_sep _ h2,
        splitOnC_append_sep _ (qExpiry_no_dot quality ((g + tokenExpiry) / 3600000)),
        splitOnC_append_sep _ htk, splitOnC_eq_single hdr]
      simp
    · have hsp : '.' ∉ (tokenSig hash secret fileId quality g).set i c := by
        intro hmem
        rcases List.mem_or_eq_of_mem_set hmem with hm | hm
        · exact hsig hm
        · exact hdot hm.symm
      unfold flipSigToken
      rw [statelessDecode_sigP secret fileId quality _ t _ h2 hq hsp]
      by_cases hexp : (g + tokenExpiry) / 3600000 < t / 3600000
      · rw [if_pos hexp]
      · have hsne' : (tokenSig hash secret fileId quality g).set i c
            ≠ (hash (fileId ++ ':' :: quality ++ ':' ::
                natToDigits10 ((g + tokenExpiry) / 3600000) ++ ':' :: secret)).take 6 := hsne
        rw [if_neg hexp, if_pos hsne']
  unfold decodeToken
  rw [hcget]
  simp only [hstateless]

theorem C4_signature_flip_witness :
    (0 < (tokenSig hashStub "s".toList "f".toList "original".toList 0).length) ∧
    (decodeToken hashStub "s".toList
        (generateToken hashStub "s".toList "f".toList "original".toList 0 []).2 1
        (flipSigToken hashStub "s".toList "f".toList "original".toList 0 0 'f')).1 = none :=
  ⟨by decide,
   C4_signature_flip "s".toList "f".toList "original".toList 0 1 0 'f'
     hashStub_hex (by decide) (by decide) (by decide) (by decide)⟩

/-! ### C9: effect of the token cache on the decode verdict -/

theorem decodeToken_fst (hash : Str → Str) (secret : Str) (cache : TokenCache)
    (t : Nat) (tok : Str) :
    (decodeToken hash secret cache t tok).1
      = match cacheGet cache tok with
        | some e =>
          if t - e.timestamp < tokenExpiry then some (e.fileId, e.quality)
          else statelessDecode hash secret t tok
        | none => statelessDecode hash secret t tok := by
  unfold decodeToken
  cases cacheGet cache tok with
  | none =>
    simp only
    cases statelessDecode hash secret t tok <;> rfl
  | some e =>
    simp only
    by_cases hf : t - e.timestamp < tokenExpiry
    · rw [if_pos hf, if_pos hf]
    · rw [if_neg hf, if_neg hf]
      cases statelessDecode hash secret t tok <;> rfl

theorem decodeToken_empty_fst (hash : Str → Str) (secret : Str) (t : Nat) (tok : Str) :
    (decodeToken hash secret [] t tok).1 = statelessDecode hash secret t tok := by
  rw [decodeToken_fst]
  rfl

/-- C9 (amended): the cache can only widen acceptance — any token accepted with
the cache cleared is accepted with any populated cache — and for a token absent
from the cache the verdict is exactly the cleared-cache verdict.  (The original
claim fails: a populated cache can accept an expired token, see the
counterexample.) -/
theorem C9_cache_widens {hash : Str → Str} (secret : Str) (cache : TokenCache)
    (t : Nat) (tok : Str) :
    (((decodeToken hash secret [] t tok).1).isSome = true →
      ((decodeToken hash secret cache t tok).1).isSome = true) ∧
    (cacheGet cache tok = none →
      (decodeToken hash secret cache t tok).1 = (decodeToken hash secret [] t tok).1) := by
  rw [decodeToken_fst hash secret cache t tok, decodeToken_empty_fst]
  constructor
  · intro hsome
    cases hget : cacheGet cache tok with
    | none => exact hsome
    | some e =>
      show (if t - e.timestamp < tokenExpiry then some (e.fileId, e.quality)
        else statelessDecode hash secret t tok).isSome = true
      by_cases hf : t - e.timestamp < tokenExpiry
      · rw [if_pos hf]; rfl
      · rw [if_neg hf]; exact hsome
  · intro hnone
    rw [hnone]

theorem C9_cache_widens_witness :
    ((decodeToken hashStub "s".toList
        [("x".toList, ⟨"y".toList, "original".toList, 0⟩)] 3600000
        (generateToken hashStub "s".toList "f".toList "original".toList 0 []).1).1
      = (decodeToken hashStub "s".toList [] 3600000
          (generateToken hashStub "s".toList "f".toList "original".toList 0 []).1).1) :=
  (C9_cache_widens "s".toList [("x".toList, ⟨"y".toList, "original".toList, 0⟩)]
    3600000 (generateToken hashStub "s".toList "f".toList "original".toList 0 []).1).2
    (by decide)

/-- C9 (counterexample): a decode trace whose re-caching keeps an expired token
valid.  A token issued at time 0 expires (statelessly) after hour 24; decoding
it at `t = 86400000` refreshes the cache entry, so decoding again at
`t = 90000000` (hour 25, past expiry) succeeds from the cache while decoding
with the cache cleared returns Invalid — the verdict depends on the cache. -/
theorem C9_counterexample :
    ((decodeToken hashStub "s".toList
        (decodeToken hashStub "s".toList
          (generateToken hashStub "s".toList "f".toList "original".toList 0 []).2
          86400000
          (generateToken hashStub "s".toList "f".toList "original".toList 0 []).1).2
        90000000
        (generateToken hashStub "s".toList "f".toList "original".toList 0 []).1).1.isSome
      = true) ∧
    ((decodeToken hashStub "s".toList [] 90000000
        (generateToken hashStub "s".toList "f".toList "original".toList 0 []).1).1.isSome
      = false) := by decide

/-! ### Range resolver (`router.get('/:token.mp4')`, `src/routes/api.js`)

The route level logic for the `Range` request header:
`parts = range.replace(/bytes=/, '').split('-')`, `start = parseInt(parts[0])`,
`end = parts[1] ? parseInt(parts[1]) : fileSize - 1`, and an unconditional
`206` with `Content-Range: bytes {start}-{end}/{fileSize}` and
`Content-Length: end - start + 1`; with no header, a `200` with
`Content-Length: fileSize`.  JS numbers that may be `NaN` are `Option Int`. -/

/-- Remove the first occurrence of `pat` (models `s.replace(/bytes=/, '')`). -/
def removeFirstSub (pat : Str) : Str → Str
  | [] => []
  | c :: cs =>
    if leadsWith pat (c :: cs) then (c :: cs).drop pat.length
    else c :: removeFirstSub pat cs

/-- Status and the two content headers the streaming route sets. -/
structure StreamResponse where
  status : Nat
  contentLength : Option Int
  contentRange : Option Str
  deriving Repr, DecidableEq

/-- The range handling of `router.get('/:token.mp4')`. -/
def resolveRange (range : Option Str) (fileSize : Int) : StreamResponse :=
  match range with
  | none => { status := 200, contentLength := some fileSize, contentRange := none }
  | some r =>
    let parts := splitOnC '-' (removeFirstSub "bytes=".toList r)
    let start := jsParseInt (parts.getD 0 [])
    let endv : Option Int :=
      if parts.getD 1 [] = [] then some (fileSize - 1)
      else jsParseInt (parts.getD 1 [])
    let chunk : Option Int :=
      match start, endv with
      | some s, some e => some (e - s + 1)
      | _, _ => none
    { status := 206,
      contentLength := chunk,
      contentRange := some ("bytes ".toList ++ numRepr start ++ '-' :: numRepr endv
        ++ '/' :: intRepr fileSize) }

theorem leadsWith_append (pat rest : Str) : leadsWith pat (pat ++ rest) = true := by
  induction pat with
  | nil => rfl
  | cons p ps ih => simp [leadsWith, ih]

theorem removeFirstSub_append (pat rest : Str) (h : pat ≠ []) :
    removeFirstSub pat (pat ++ rest) = rest := by
  match pat, h with
  | p :: ps, _ =>
    show removeFirstSub (p :: ps) ((p :: ps) ++ rest) = rest
    rw [List.cons_append]
    unfold removeFirstSub
    rw [← List.cons_append, if_pos (leadsWith_append _ _)]
    exact List.drop_left (p :: ps) rest

theorem natToDigits10_no_dash {n : Nat} : '-' ∉ natToDigits10 n := by
  intro h
  rcases natToDigits10_all_digits h with ⟨d, hd, he⟩
  exact digit10_ne_dash hd he.symm

/-- A `bytes={s}-{e}` header resolves to the unvalidated `206` window. -/
theorem resolveRange_some_both (s e : Nat) (total : Int) :
    resolveRange (some ("bytes=".toList ++ natToDigits10 s ++ '-' :: natToDigits10 e)) total
      = { status := 206,
          contentLength := some ((e : Int) - (s : Int) + 1),
          contentRange := some ("bytes ".toList ++ natToDigits10 s ++ '-' :: natToDigits10 e
            ++ '/' :: intRepr total) } := by
  simp only [resolveRange]
  rw [List.append_assoc, removeFirstSub_append _ _ (by decide),
    splitOnC_append_sep _ (natToDigits10_no_dash),
    splitOnC_eq_single (natToDigits10_no_dash)]
  simp only [List.getD_cons_zero, List.getD_cons_succ]
  rw [if_neg (natToDigits10_ne_nil e), jsParseInt_natToDigits10 s, jsParseInt_natToDigits10 e]
  simp only [numRepr]
  rw [intRepr_natCast s, intRepr_natCast e]

/-- A `bytes={s}-` header (no end) defaults the end to `fileSize - 1`. -/
theorem resolveRange_some_noEnd (s : Nat) (total : Int) :
    resolveRange (some ("bytes=".toList ++ natToDigits10 s ++ ['-'])) total
      = { status := 206,
          contentLength := some ((total - 1) - (s : Int) + 1),
          contentRange := some ("bytes ".toList ++ natToDigits10 s ++ '-' :: intRepr (total - 1)
            ++ '/' :: intRepr total) } := by
  simp only [resolveRange]
  have hsplit : splitOnC '-' (natToDigits10 s ++ ['-'])
      = [natToDigits10 s, []] := by
    have : natToDigits10 s ++ ['-'] = natToDigits10 s ++ '-' :: [] := rfl
    rw [this, splitOnC_append_sep _ (natToDigits10_no_dash)]
    rfl
  rw [List.append_assoc, removeFirstSub_append _ _ (by decide), hsplit]
  simp only [List.getD_cons_zero, List.getD_cons_succ, ite_true]
  rw [jsParseInt_natToDigits10 s]
  simp only [numRepr]
  rw [intRepr_natCast s]

theorem intRepr_sub_one (total : Nat) (h : 1 ≤ total) :
    intRepr ((total : Int) - 1) = natToDigits10 (total - 1) := by
  have hc : ((total : Int) - 1) = ((total - 1 : Nat) : Int) := by omega
  rw [hc, intRepr_natCast]

/-- C5: with no `Range` header the route answers `200` with
`Content-Length = totalSize`; with `bytes={start}-{end}` (the end defaulting to
`totalSize - 1` when absent) satisfying `0 ≤ start ≤ end < totalSize` it
answers `206` with `Content-Range: bytes {start}-{end}/{totalSize}` and
`Content-Length = end - start + 1`. -/
theorem C5_stream_response (s e total : Nat) (hse : s ≤ e) (het : e < total) :
    (resolveRange none (total : Int)
      = { status := 200, contentLength := some (total : Int), contentRange := none }) ∧
    (resolveRange (some ("bytes=".toList ++ natToDigits10 s ++ '-' :: natToDigits10 e))
        (total : Int)
      = { status := 206, contentLength := some ((e : Int) - (s : Int) + 1),
          contentRange := some ("bytes ".toList ++ natToDigits10 s ++ '-' :: natToDigits10 e
            ++ '/' :: natToDigits10 total) }) ∧
    (resolveRange (some ("bytes=".toList ++ natToDigits10 s ++ ['-'])) (total : Int)
      = { status := 206, contentLength := some ((total : Int) - (s : Int)),
          contentRange := some ("bytes ".toList ++ natToDigits10 s ++ '-' ::
            natToDigits10 (total - 1) ++ '/' :: natToDigits10 total) }) := by
  refine ⟨rfl, ?_, ?_⟩
  · rw [resolveRange_some_both s e (total : Int), intRepr_natCast total]
  · rw [resolveRange_some_noEnd s (total : Int), intRepr_natCast total,
      intRepr_sub_one total (by omega)]
    have harith : ((total : Int) - 1) - (s : Int) + 1 = (total : Int) - (s : Int) := by ring
    rw [harith]

theorem C5_stream_response_witness :
    (resolveRange none ((10 : Nat) : Int)
      = { status := 200, contentLength := some ((10 : Nat) : Int), contentRange := none }) ∧
    (resolveRange (some ("bytes=".toList ++ natToDigits10 2 ++ '-' :: natToDigits10 5))
        ((10 : Nat) : Int)
      = { status := 206, contentLength := some (((5 : Nat) : Int) - ((2 : Nat) : Int) + 1),
          contentRange := some ("bytes ".toList ++ natToDigits10 2 ++ '-' :: natToDigits10 5
            ++ '/' :: natToDigits10 10) }) ∧
    (resolveRange (some ("bytes=".toList ++ natToDigits10 2 ++ ['-'])) ((10 : Nat) : Int)
      = { status := 206, contentLength := some (((10 : Nat) : Int) - ((2 : Nat) : Int)),
          contentRange := some ("bytes ".toList ++ natToDigits10 2 ++ '-' ::
            natToDigits10 (10 - 1) ++ '/' :: natToDigits10 10) }) :=
  C5_stream_response 2 5 10 (by decide) (by decide)

/-- C2 is a code bug: the route never validates the parsed range.  For
`Range: bytes=2000000-` against `totalSize = 1000000` (start beyond size) and
for `Range: bytes=5-2` (start > end) it still answers `206` — with an
out-of-bounds `Content-Range` and a negative `Content-Length` — instead of the
416 rejection the specification requires. -/
theorem C2_range_validation_missing :
    (resolveRange (some "bytes=2000000-".toList) (1000000 : Int)
      = { status := 206, contentLength := some (-1000000),
          contentRange := some "bytes 2000000-999999/1000000".toList }) ∧
    (resolveRange (some "bytes=5-2".toList) (10 : Int)
      = { status := 206, contentLength := some (-2),
          contentRange := some "bytes 5-2/10".toList }) := by decide

/-! ### Quality analyzer (`src/services/driveService.js`)

`getResolutionLabel`, the bitrate derivation of `analyzeVideoQuality`, and
`generateQualityOptions`.  JS floating-point ratios are modelled as exact
rationals; `Math.round` is `⌊x + 1/2⌋`.  Display-only fields computed from
floats (`bitrateLabel`, `description`, `durationFormatted`,
`fileSizeFormatted`, `bitrateQuality`, `codec`) are not part of the embedding;
the claims do not touch them. -/

/-- `Math.round` (half-up) on an exact rational. -/
def jsRound (q : ℚ) : Int := ⌊q + 1 / 2⌋

/-- One entry of the quality `presets` array in `generateQualityOptions`. -/
structure QualityPreset where
  id : Str
  label : Str
  height : Int
  bitrate : Int
  icon : Char
  deriving Repr, DecidableEq

/-- The `presets` array (the `original` entry mirrors the source's measured
height/bitrate). -/
def qualityPresets (sourceHeight sourceBitrate : Int) : List QualityPreset :=
  [⟨"original".toList, "Original".toList, sourceHeight, sourceBitrate, '⭐'⟩,
   ⟨"1080p".toList, "1080p Full HD".toList, 1080, 8000000, '🎬'⟩,
   ⟨"720p".toList, "720p HD".toList, 720, 5000000, '📺'⟩,
   ⟨"480p".toList, "480p SD".toList, 480, 2500000, '📱'⟩,
   ⟨"360p".toList, "360p".toList, 360, 1000000, '💾'⟩]

/-- One generated quality option (claim-relevant fields). -/
structure QualityOption where
  id : Str
  label : Str
  icon : Char
  width : Int
  height : Int
  bitrate : Int
  isOriginal : Bool
  deriving Repr, DecidableEq

/-- `generateQualityOptions(sourceWidth, sourceHeight, sourceBitrate)`. -/
def generateQualityOptions (sourceWidth sourceHeight sourceBitrate : Int) :
    List QualityOption :=
  ((qualityPresets sourceHeight sourceBitrate).filter
    (fun preset => preset.id = "original".toList || preset.height ≤ sourceHeight)).map
    (fun preset =>
      let aspectRatio : ℚ := (sourceWidth : ℚ) / (sourceHeight : ℚ)
      let targetWidth := if preset.id = "original".toList then sourceWidth
        else jsRound ((preset.height : ℚ) * aspectRatio)
      let targetHeight := if preset.id = "original".toList then sourceHeight else preset.height
      let targetBitrate := if preset.id = "original".toList then sourceBitrate
        else min preset.bitrate sourceBitrate
      { id := preset.id, label := preset.label, icon := preset.icon,
        width := targetWidth, height := targetHeight, bitrate := targetBitrate,
        isOriginal := preset.id = "original".toList })

/-- `getResolutionLabel(width, height)`. -/
def getResolutionLabel (width height : Int) : Str :=
  let maxDimension := max width height
  if maxDimension ≥ 3840 then "4K Ultra HD".toList
  else if maxDimension ≥ 2560 then "1440p QHD".toList
  else if maxDimension ≥ 1920 then "1080p Full HD".toList
  else if maxDimension ≥ 1280 then "720p HD".toList
  else if maxDimension ≥ 854 then "480p SD".toList
  else if maxDimension ≥ 640 then "360p".toList
  else if maxDimension ≥ 426 then "240p".toList
  else if maxDimension > 0 then intRepr width ++ '×' :: intRepr height
  else "Unknown".toList

/-- The claim-relevant fields of `analyzeVideoQuality` (numeric metadata
already extracted, as the source does with `parseInt(..) || 0`). -/
structure VideoQualityInfo where
  width : Int
  height : Int
  resolution : Str
  bitrate : Int
  qualityOptions : List QualityOption
  deriving Repr, DecidableEq

/-- `analyzeVideoQuality`: bitrate `round(fileSize*8/durationSeconds)` when the
duration is positive (else 0), resolution label and quality options. -/
def analyzeVideoQuality (fileSize durationMs width height : Int) : VideoQualityInfo :=
  let durationSeconds : ℚ := (durationMs : ℚ) / 1000
  let bitrate : Int :=
    if durationSeconds > 0 then jsRound ((fileSize : ℚ) * 8 / durationSeconds) else 0
  { width := width, height := height,
    resolution := getResolutionLabel width height,
    bitrate := bitrate,
    qualityOptions := generateQualityOptions width height bitrate }

/-- C7: the options list always contains an `original` option mirroring the
source's width/height/bitrate; every non-original option never upscales
(`height ≤ source height`), preserves the aspect ratio for its width and caps
its bitrate at `min(presetBitrate, sourceBitrate)`.  For the concrete metadata
`width=1920, height=1080, durationMillis=600000, byteSize=600000000` the label
is "1080p Full HD", the derived bitrate is 8000000 bit/s, and the options are
exactly original/1080p/720p/480p/360p with no target height above 1080. -/
theorem C7_quality_analyzer (w h br : Int) (hw : 0 < w) (hht : 0 < h) :
    (∃ o ∈ generateQualityOptions w h br,
        o.id = "original".toList ∧ o.isOriginal = true
          ∧ o.width = w ∧ o.height = h ∧ o.bitrate = br) ∧
    (∀ o ∈ generateQualityOptions w h br, o.isOriginal = false →
        o.height ≤ h
          ∧ o.width = jsRound ((o.height : ℚ) * ((w : ℚ) / (h : ℚ)))
          ∧ ∃ p ∈ qualityPresets h br,
              p.id = o.id ∧ o.height = p.height ∧ o.bitrate = min p.bitrate br) ∧
    ((analyzeVideoQuality 600000000 600000 1920 1080).resolution = "1080p Full HD".toList) ∧
    ((analyzeVideoQuality 600000000 600000 1920 1080).bitrate = 8000000) ∧
    ((analyzeVideoQuality 600000000 600000 1920 1080).qualityOptions.map (fun o => o.id)
      = ["original".toList, "1080p".toList, "720p".toList, "480p".toList, "360p".toList]) ∧
    (∀ o ∈ (analyzeVideoQuality 600000000 600000 1920 1080).qualityOptions,
        o.height ≤ 1080) := by
  have hbit : (analyzeVideoQuality 600000000 600000 1920 1080).bitrate = 8000000 := by
    simp only [analyzeVideoQuality, jsRound]
    norm_num
  refine ⟨?_, ?_, by decide, hbit, ?_, ?_⟩
  · refine ⟨_, List.mem_map.mpr ⟨⟨"original".toList, "Original".toList, h, br, '⭐'⟩,
      List.mem_filter.mpr ⟨by simp [qualityPresets], by simp⟩, rfl⟩,
      by simp, by simp, by simp, by simp, by simp⟩
  · intro o ho hno
    rcases List.mem_map.mp ho with ⟨p, hp, rfl⟩
    rcases List.mem_filter.mp hp with ⟨hpmem, hpcond⟩
    fin_cases hpmem
    · exact absurd hno (by simp)
    · exact ⟨by simpa using hpcond, by simp,
        ⟨"1080p".toList, "1080p Full HD".toList, 1080, 8000000, '🎬'⟩,
        by simp [qualityPresets], by simp, by simp, by simp⟩
    · exact ⟨by simpa using hpcond, by simp,
        ⟨"720p".toList, "720p HD".toList, 720, 5000000, '📺'⟩,
        by simp [qualityPresets], by simp, by simp, by simp⟩
    · exact ⟨by simpa using hpcond, by simp,
        ⟨"480p".toList, "480p SD".toList, 480, 2500000, '📱'⟩,
        by simp [qualityPresets], by simp, by simp, by simp⟩
    · exact ⟨by simpa using hpcond, by simp,
        ⟨"360p".toList, "360p".toList, 360, 1000000, '💾'⟩,
        by simp [qualityPresets], by simp, by simp, by simp⟩
  · show ((analyzeVideoQuality 600000000 600000 1920 1080).qualityOptions.map (fun o => o.id))
      = _
    rw [show (analyzeVideoQuality 600000000 600000 1920 1080).qualityOptions
      = generateQualityOptions 1920 1080 (analyzeVideoQuality 600000000 600000 1920 1080).bitrate
      from rfl, hbit]
    decide
  · intro o ho
    rw [show (analyzeVideoQuality 600000000 600000 1920 1080).qualityOptions
      = generateQualityOptions 1920 1080 (analyzeVideoQuality 600000000 600000 1920 1080).bitrate
      from rfl, hbit] at ho
    rcases List.mem_map.mp ho with ⟨p, hp, rfl⟩
    rcases List.mem_filter.mp hp with ⟨hpmem, hpcond⟩
    fin_cases hpmem <;> simp

theorem C7_quality_analyzer_witness :
    ∃ o ∈ generateQualityOptions 1920 1080 8000000,
      o.id = "original".toList ∧ o.isOriginal = true
        ∧ o.width = 1920 ∧ o.height = 1080 ∧ o.bitrate = 8000000 :=
  (C7_quality_analyzer 1920 1080 8000000 (by decide) (by decide)).1

/-! ### Universal (proxy) tokens

`src/routes/api.js` calls `tokenService.generateUniversalToken` and
`tokenService.decodeUniversalToken`, but no file under `src/` defines them;
they are modelled from the spec (§3, §4.1): a proxy token wraps a full
external URL, an options bag `{buffering, proxyEnabled, mediaKind}` and an
expiry, signed with a truncated keyed digest and rendered in a URL-safe,
dot-separated form like the resource token. -/

/-- Four-base-62-digit encoding of one character (injective, `'.'`-free and
URL-safe; any code point is below `62^4`). -/
def encChar (c : Char) : Str :=
  [digit62 (c.toNat / 238328), digit62 (c.toNat / 3844 % 62),
   digit62 (c.toNat / 62 % 62), digit62 (c.toNat % 62)]

/-- URL-safe encoding of a string, four base-62 digits per character. -/
def encStr (s : Str) : Str := s.flatMap encChar

/-- Inverse of `encStr`; `none` on malformed input. -/
def decStr : Str → Option Str
  | [] => some []
  | a :: b :: c :: d :: rest =>
    match decStr rest with
    | none => none
    | some tail =>
      let n := ((idx62 a * 62 + idx62 b) * 62 + idx62 c) * 62 + idx62 d
      if 0 ≤ n ∧ n < 1114112 then some (Char.ofNat n.toNat :: tail) else none
  | _ => none

/-- The options bag carried by a universal token. -/
structure UniOptions where
  buffer : Bool
  proxy : Bool
  type : Str
  deriving Repr, DecidableEq

/-- Modelled from the spec: `generateUniversalToken(sourceUrl, options)` is
called by both universal routes but is not defined anywhere under `src/`; per
spec §4.1 a proxy token wraps the full URL, the options bag and an expiry
boundary, with a truncated keyed digest over the other fields, in a URL-safe
encoding.  Format: `{encUrl}.{buffer}{proxy}{expiry62}-{encType}.{sig6}`. -/
def generateUniversalToken (hash : Str → Str) (secret : Str) (sourceUrl : Str)
    (opts : UniOptions) (now : Nat) : Str :=
  let expiryHours := (now + tokenExpiry) / 3600000
  let optsF := (if opts.buffer then '1' else '0') :: (if opts.proxy then '1' else '0')
    :: numToBase62 expiryHours ++ '-' :: encStr opts.type
  let sig := (hash (encStr sourceUrl ++ ':' :: optsF ++ ':' :: secret)).take 6
  encStr sourceUrl ++ '.' :: optsF ++ '.' :: sig

/-- Modelled from the spec: `decodeUniversalToken(token)` (not defined under
`src/`); per spec §4.1 it must reject (return Invalid, never throw) on
malformed structure, expiry in the past relative to verification time, or
signature mismatch, and otherwise return the wrapped `{sourceUrl, options}`
from the token's own bytes alone. -/
def decodeUniversalToken (hash : Str → Str) (secret : Str) (now : Nat)
    (token : Str) : Option (Str × UniOptions) :=
  let parts := splitOnC '.' token
  if parts.length ≠ 3 then none
  else
    let urlF := parts.getD 0 []
    let optsF := parts.getD 1 []
    let sigF := parts.getD 2 []
    if optsF.length < 2 then none
    else
      let bc := optsF.getD 0 ' '
      let pc := optsF.getD 1 ' '
      let rest := optsF.drop 2
      let expiryHours := base62ToNum (rest.takeWhile (fun c => c ≠ '-'))
      let typeF := (rest.dropWhile (fun c => c ≠ '-')).drop 1
      if (((now / 3600000 : Nat) : Int)) > expiryHours then none
      else if sigF ≠ (hash (urlF ++ ':' :: optsF ++ ':' :: secret)).take 6 then none
      else
        match decStr urlF, decStr typeF with
        | some url, some ty => some (url, ⟨bc = '1', pc = '1', ty⟩)
        | _, _ => none

theorem char_toNat_lt (c : Char) : c.toNat < 1114112 := by
  rcases c.valid with h | ⟨_, h2⟩
  · show c.val.toNat < 1114112
    omega
  · show c.val.toNat < 1114112
    omega

theorem encChar_digits {c : Char} {x : Char} (hx : x ∈ encChar c) :
    ∃ d, d < 62 ∧ x = digit62 d := by
  have hlt := char_toNat_lt c
  simp only [encChar, List.mem_cons, List.not_mem_nil, or_false] at hx
  rcases hx with rfl | rfl | rfl | rfl
  · exact ⟨c.toNat / 238328, by omega, rfl⟩
  · exact ⟨c.toNat / 3844 % 62, Nat.mod_lt _ (by norm_num), rfl⟩
  · exact ⟨c.toNat / 62 % 62, Nat.mod_lt _ (by norm_num), rfl⟩
  · exact ⟨c.toNat % 62, Nat.mod_lt _ (by norm_num), rfl⟩

theorem encStr_digits {s : Str} {x : Char} (hx : x ∈ encStr s) :
    ∃ d, d < 62 ∧ x = digit62 d := by
  rcases List.mem_flatMap.mp hx with ⟨c, _, hc⟩
  exact encChar_digits hc

theorem dot_not_mem_encStr (s : Str) : '.' ∉ encStr s := by
  intro h
  rcases encStr_digits h with ⟨d, hd, he⟩
  exact digit62_ne_dot hd he.symm

theorem decStr_encStr (s : Str) : decStr (encStr s) = some s := by
  induction s with
  | nil => rfl
  | cons c cs ih =>
    have hstep : encStr (c :: cs) = digit62 (c.toNat / 238328)
        :: digit62 (c.toNat / 3844 % 62) :: digit62 (c.toNat / 62 % 62)
        :: digit62 (c.toNat % 62) :: encStr cs := rfl
    rw [hstep]
    have hlt := char_toNat_lt c
    unfold decStr
    rw [ih]
    rw [idx62_digit62 (by omega), idx62_digit62 (Nat.mod_lt _ (by norm_num)),
      idx62_digit62 (Nat.mod_lt _ (by norm_num)), idx62_digit62 (Nat.mod_lt _ (by norm_num))]
    rw [show c.toNat / 3844 = c.toNat / 62 / 62 by rw [Nat.div_div_eq_div_mul],
      show c.toNat / 238328 = c.toNat / 62 / 62 / 62 by
        rw [Nat.div_div_eq_div_mul, Nat.div_div_eq_div_mul]]
    have hval : ((((c.toNat / 62 / 62 / 62 : Nat) : Int) * 62
          + ((c.toNat / 62 / 62 % 62 : Nat) : Int)) * 62
        + ((c.toNat / 62 % 62 : Nat) : Int)) * 62 + ((c.toNat % 62 : Nat) : Int)
        = (c.toNat : Int) := by omega
    rw [hval]
    show (if 0 ≤ (c.toNat : Int) ∧ (c.toNat : Int) < 1114112 then
        some (Char.ofNat ((c.toNat : Int)).toNat :: cs) else none) = some (c :: cs)
    rw [if_pos (by omega)]
    have hback : ((c.toNat : Int)).toNat = c.toNat := by omega
    rw [hback, Char.ofNat_toNat]

theorem takeWhile_append_char (p : Char → Bool) (a : Str) (x : Char) (b : Str)
    (ha : ∀ c ∈ a, p c = true) (hx : p x = false) :
    (a ++ x :: b).takeWhile p = a ∧ (a ++ x :: b).dropWhile p = x :: b := by
  induction a with
  | nil =>
    constructor
    · rw [List.nil_append, List.takeWhile_cons_of_neg (by simp [hx])]
    · rw [List.nil_append, List.dropWhile_cons_of_neg (by simp [hx])]
  | cons c cs ih =>
    have hc : p c = true := ha c (by simp)
    have ih' := ih (fun d hd => ha d (List.mem_cons_of_mem _ hd))
    constructor
    · rw [List.cons_append, List.takeWhile_cons_of_pos (by simp [hc]), ih'.1]
    · rw [List.cons_append, List.dropWhile_cons_of_pos (by simp [hc]), ih'.2]

/-- The middle field of a universal token contains no `'.'`. -/
theorem uniOptsF_no_dot (opts : UniOptions) (E : Nat) :
    '.' ∉ (if opts.buffer then '1' else '0') :: (if opts.proxy then '1' else '0')
      :: numToBase62 E ++ '-' :: encStr opts.type := by
  intro h
  rcases List.mem_cons.mp h with h | h
  · revert h; split <;> decide
  · rcases List.mem_cons.mp h with h | h
    · revert h; split <;> decide
    · rcases List.mem_append.mp h with h | h
      · exact dot_not_mem_numToBase62 E h
      · rcases List.mem_cons.mp h with h | h
        · exact absurd h.symm (by decide)
        · exact dot_not_mem_encStr _ h

/-- `decodeUniversalToken` accepts the token `generateUniversalToken` builds,
stated over an abstract expiry hour `E` and in the generator's exact shape. -/
theorem decodeUniversalToken_mkE {hash : Str → Str} (hh : HexDigest hash)
    (secret sourceUrl : Str) (ob op : Bool) (oty : Str) (E t : Nat)
    (ht : t / 3600000 ≤ E) :
    decodeUniversalToken hash secret t
        (encStr sourceUrl ++ '.' :: ((if ob = true then '1' else '0')
          :: (if op = true then '1' else '0') :: numToBase62 E ++ '-' :: encStr oty) ++ '.' ::
          (hash (encStr sourceUrl ++ ':' :: ((if ob = true then '1' else '0')
            :: (if op = true then '1' else '0') :: numToBase62 E ++ '-' :: encStr oty)
            ++ ':' :: secret)).take 6)
      = some (sourceUrl, ⟨ob, op, oty⟩) := by
  have hm : '.' ∉ (if ob = true then '1' else '0')
      :: (if op = true then '1' else '0') :: numToBase62 E ++ '-' :: encStr oty :=
    uniOptsF_no_dot ⟨ob, op, oty⟩ E
  have hnd : ∀ c ∈ numToBase62 E, (fun c => decide (c ≠ '-')) c = true := by
    intro c hc
    simp only [decide_eq_true_eq]
    unfold numToBase62 at hc
    split at hc
    · simp at hc
      subst hc
      decide
    · rcases numToBase62Aux_mem _ _ _ c hc with h' | ⟨d, hd, he⟩
      · simp at h'
      · exact he ▸ digit62_ne_dash hd
  unfold decodeUniversalToken
  rw [splitOnC_token (dot_not_mem_encStr sourceUrl) hm (sig_no_dot hh _)]
  simp only [List.length_cons, List.length_nil, List.getD_cons_zero, List.getD_cons_succ]
  rw [if_neg (by decide)]
  rw [if_neg (show ¬(((if ob = true then '1' else '0')
      :: (if op = true then '1' else '0') :: numToBase62 E ++ '-' :: encStr oty).length < 2) from by
    rw [List.length_append, List.length_cons, List.length_cons]
    omega)]
  simp only [show (((if ob = true then '1' else '0')
        :: (if op = true then '1' else '0') :: numToBase62 E ++ '-' :: encStr oty).getD 0 ' ')
      = (if ob = true then '1' else '0') from rfl,
    show (((if ob = true then '1' else '0')
        :: (if op = true then '1' else '0') :: numToBase62 E ++ '-' :: encStr oty).getD 1 ' ')
      = (if op = true then '1' else '0') from rfl,
    show List.drop 2 ((if ob = true then '1' else '0')
        :: (if op = true then '1' else '0') :: numToBase62 E ++ '-' :: encStr oty)
      = numToBase62 E ++ '-' :: encStr oty from rfl]
  have htw := takeWhile_append_char (fun c => decide (c ≠ '-')) (numToBase62 E) '-'
    (encStr oty) hnd (by decide)
  rw [htw.1, htw.2]
  simp only [List.drop_one, List.tail_cons]
  rw [base62ToNum_numToBase62]
  rw [if_neg (show ¬(((t / 3600000 : Nat) : Int) > ((E : Nat) : Int)) from by
    exact_mod_cast Nat.not_lt.mpr ht)]
  rw [if_neg (by simp)]
  rw [decStr_encStr, decStr_encStr]
  cases ob <;> cases op <;> rfl

/-- Decoding a freshly minted universal token at any time up to its expiry
hour returns the wrapped URL and options. -/
theorem decodeUniversalToken_mk {hash : Str → Str} (hh : HexDigest hash)
    (secret sourceUrl : Str) (opts : UniOptions) (g t : Nat)
    (ht : t / 3600000 ≤ (g + tokenExpiry) / 3600000) :
    decodeUniversalToken hash secret t
        (generateUniversalToken hash secret sourceUrl opts g)
      = some (sourceUrl, opts) := by
  obtain ⟨ob, op, oty⟩ := opts
  exact decodeUniversalToken_mkE hh secret sourceUrl ob op oty
    ((g + tokenExpiry) / 3600000) t ht

/-! ### The universal stream route's extension stripping (`src/routes/api.js`)

`token = token.replace(/\.(m3u8|mpd|mp4|webm|ts|m4s)$/i, '')`. -/

/-- ASCII lowercasing (the only case folding the `/i` regex flag needs here). -/
def charLower (c : Char) : Char :=
  if 'A' ≤ c ∧ c ≤ 'Z' then Char.ofNat (c.toNat + 32) else c

def toLowerStr (s : Str) : Str := s.map charLower

/-- The recognized media extensions of the strip regex. -/
def streamExts : List Str :=
  [".m3u8".toList, ".mpd".toList, ".mp4".toList, ".webm".toList, ".ts".toList, ".m4s".toList]

/-- Case-insensitive "ends with". -/
def endsWithCI (s ext : Str) : Bool := decide (toLowerStr ext <:+ toLowerStr s)

/-- The anchored, case-insensitive extension strip applied once to the path. -/
def stripStreamExt (p : Str) : Str :=
  match streamExts.find? (fun e => endsWithCI p e) with
  | some e => p.take (p.length - e.length)
  | none => p

/-- `s.includes(sub)` on JS strings. -/
def strIncludes (s sub : Str) : Bool := decide (sub <:+: s)

/-- `detectStreamType(url)` from the universal routes. -/
def detectStreamType (url : Str) : Str :=
  let urlLower := toLowerStr url
  if strIncludes urlLower ".m3u8".toList || strIncludes urlLower "hls".toList then "HLS".toList
  else if strIncludes urlLower ".mpd".toList || strIncludes urlLower "dash".toList then
    "DASH".toList
  else if strIncludes urlLower ".mp4".toList then "MP4".toList
  else if strIncludes urlLower ".webm".toList then "WebM".toList
  else if strIncludes urlLower ".mkv".toList then "MKV".toList
  else "Universal".toList

theorem toLowerStr_append (a b : Str) : toLowerStr (a ++ b) = toLowerStr a ++ toLowerStr b :=
  List.map_append charLower a b

/-- Appending a recognized extension to a path that does not already end in
one strips back to exactly the original path. -/
theorem stripStreamExt_append {t s : Str} (hs : s ∈ streamExts)
    (hne : ∀ e ∈ streamExts, endsWithCI t e = false) :
    stripStreamExt (t ++ s) = t := by
  have hts : endsWithCI (t ++ s) s = true := by
    unfold endsWithCI
    rw [toLowerStr_append]
    exact decide_eq_true_eq.mpr (List.suffix_append _ _)
  have huniq : ∀ e ∈ streamExts, endsWithCI (t ++ s) e = true → e = s := by
    intro e heme hend
    have he : toLowerStr e <:+ toLowerStr t ++ toLowerStr s := by
      have h0 := of_decide_eq_true hend
      rwa [toLowerStr_append] at h0
    have hs2 : toLowerStr s <:+ toLowerStr t ++ toLowerStr s := List.suffix_append _ _
    rcases List.suffix_or_suffix_of_suffix he hs2 with h | h
    · fin_cases heme <;> fin_cases hs <;> first | rfl | exact absurd h (by decide)
    · fin_cases heme <;> fin_cases hs <;> first | rfl | exact absurd h (by decide)
  unfold stripStreamExt
  have hfind : streamExts.find? (fun e => endsWithCI (t ++ s) e) = some s := by
    cases hf : streamExts.find? (fun e => endsWithCI (t ++ s) e) with
    | none =>
      rw [List.find?_eq_none] at hf
      exact absurd hts (by simpa using hf s hs)
    | some e =>
      have h1 := List.find?_some hf
      have h2 := List.mem_of_find?_eq_some hf
      rw [huniq e h2 h1]
  rw [hfind]
  show List.take ((t ++ s).length - s.length) (t ++ s) = t
  rw [List.length_append, show t.length + s.length - s.length = t.length by omega]
  exact List.take_left t s

/-- A path ending in none of the recognized extensions is left unchanged. -/
theorem stripStreamExt_id {t : Str} (hne : ∀ e ∈ streamExts, endsWithCI t e = false) :
    stripStreamExt t = t := by
  unfold stripStreamExt
  rw [List.find?_eq_none.mpr (by
    intro e he
    rw [hne e he]
    simp)]

/-- C10 (amended): for a token string `t` that does not itself end
(case-insensitively) in one of the recognized media extensions, a request for
`t ++ s` (with `s` a recognized extension) and a request for `t` both strip to
exactly `t`, so the route decodes the same token string — and hence the same
token data — for both.  (When `t` itself ends in a recognized extension the
two requests decode different strings, see the counterexample.) -/
theorem C10_extension_strip {hash : Str → Str} (secret : Str) (now : Nat) (t s : Str)
    (hs : s ∈ streamExts) (hne : ∀ e ∈ streamExts, endsWithCI t e = false) :
    stripStreamExt (t ++ s) = t ∧ stripStreamExt t = t ∧
    decodeUniversalToken hash secret now (stripStreamExt (t ++ s))
      = decodeUniversalToken hash secret now (stripStreamExt t) := by
  refine ⟨stripStreamExt_append hs hne, stripStreamExt_id hne, ?_⟩
  rw [stripStreamExt_append hs hne, stripStreamExt_id hne]

theorem C10_extension_strip_witness :
    stripStreamExt ("abc123".toList ++ ".m3u8".toList) = "abc123".toList ∧
    stripStreamExt "abc123".toList = "abc123".toList ∧
    decodeUniversalToken hashStub "s".toList 0 (stripStreamExt ("abc123".toList ++ ".m3u8".toList))
      = decodeUniversalToken hashStub "s".toList 0 (stripStreamExt "abc123".toList) :=
  C10_extension_strip "s".toList 0 "abc123".toList ".m3u8".toList (by decide) (by decide)

/-- C10 (counterexample): the claim fails for a token string that itself ends
in a recognized extension.  For a freshly minted (valid) universal token `v`,
take `t := v ++ ".ts"` and `s := ".m3u8"`.  A request for `t ++ s` strips one
extension and decodes `v ++ ".ts"` — Invalid — while a request for `t` alone
strips `.ts` and decodes `v` — valid.  The two requests are handled
differently, against the claim's universal quantification over token strings. -/
theorem C10_counterexample :
    ((decodeUniversalToken hashStub "s".toList 0 (stripStreamExt
        ((generateUniversalToken hashStub "s".toList "http://h/v".toList
            ⟨true, true, "MP4".toList⟩ 0 ++ ".ts".toList) ++ ".m3u8".toList))).isSome = false) ∧
    ((decodeUniversalToken hashStub "s".toList 0 (stripStreamExt
        (generateUniversalToken hashStub "s".toList "http://h/v".toList
            ⟨true, true, "MP4".toList⟩ 0 ++ ".ts".toList))).isSome = true) := by decide

/-! ### `POST /universal/generate` (`src/routes/api.js`) -/

/-- The success payload `{proxyUrl, streamType, buffering, proxied, originalUrl}`. -/
structure UniGenData where
  proxyUrl : Str
  streamType : Str
  buffering : Bool
  proxied : Bool
  originalUrl : Str
  deriving Repr, DecidableEq

/-- Status plus optional success payload of the generate endpoint. -/
structure UniGenResponse where
  status : Nat
  data : Option UniGenData
  deriving Repr, DecidableEq

/-- `router.post('/universal/generate')`: reject a missing/empty or unparsable
`sourceUrl` with 400 (URL validity is the platform's `new URL` constructor,
supplied as the predicate `isValidURL`), then detect the stream type, mint a
universal token, build the proxy URL (with `.m3u8`/`.mpd` suffix for
HLS/DASH), and answer 200. -/
def universalGenerate (hash : Str → Str) (secret : Str) (isValidURL : Str → Bool)
    (baseUrl : Str) (sourceUrl : Option Str) (enableBuffer enableProxy : Bool)
    (now : Nat) : UniGenResponse :=
  match sourceUrl with
  | none => ⟨400, none⟩
  | some u =>
    if u = [] then ⟨400, none⟩
    else if isValidURL u then
      ⟨200, some
        ⟨(if detectStreamType u = "HLS".toList then
            baseUrl ++ "/api/universal/stream/".toList
              ++ generateUniversalToken hash secret u
                  ⟨enableBuffer, enableProxy, detectStreamType u⟩ now ++ ".m3u8".toList
          else if detectStreamType u = "DASH".toList then
            baseUrl ++ "/api/universal/stream/".toList
              ++ generateUniversalToken hash secret u
                  ⟨enableBuffer, enableProxy, detectStreamType u⟩ now ++ ".mpd".toList
          else
            baseUrl ++ "/api/universal/stream/".toList
              ++ generateUniversalToken hash secret u
                  ⟨enableBuffer, enableProxy, detectStreamType u⟩ now),
          detectStreamType u, enableBuffer, enableProxy, u⟩⟩
    else ⟨400, none⟩

/-- C8: for every request body whose `sourceUrl` parses as a valid URL, the
endpoint answers 200 with `{proxyUrl, streamType, buffering, proxied}`, where
`proxyUrl` embeds a freshly minted proxy-kind token for the source URL (plus a
type-dependent extension), and that token decodes back to the source URL and
options. -/
theorem C8_universal_generate {hash : Str → Str} (hh : HexDigest hash)
    (secret baseUrl : Str) (isValidURL : Str → Bool) (u : Str) (b p : Bool) (now : Nat)
    (hu : u ≠ []) (hv : isValidURL u = true) :
    ∃ ext,
      universalGenerate hash secret isValidURL baseUrl (some u) b p now
        = ⟨200, some ⟨baseUrl ++ "/api/universal/stream/".toList
              ++ generateUniversalToken hash secret u ⟨b, p, detectStreamType u⟩ now ++ ext,
            detectStreamType u, b, p, u⟩⟩
      ∧ decodeUniversalToken hash secret now
          (generateUniversalToken hash secret u ⟨b, p, detectStreamType u⟩ now)
        = some (u, ⟨b, p, detectStreamType u⟩) := by
  have hdec := decodeUniversalToken_mk hh secret u ⟨b, p, detectStreamType u⟩ now now
    (Nat.div_le_div_right (Nat.le_add_right now tokenExpiry))
  show ∃ ext, (if u = [] then (⟨400, none⟩ : UniGenResponse) else if isValidURL u then _ else ⟨400, none⟩) = _ ∧ _
  rw [if_neg hu, if_pos hv]
  by_cases h1 : detectStreamType u = "HLS".toList
  · exact ⟨".m3u8".toList, by rw [if_pos h1], hdec⟩
  · by_cases h2 : detectStreamType u = "DASH".toList
    · exact ⟨".mpd".toList, by rw [if_neg h1, if_pos h2], hdec⟩
    · exact ⟨[], by rw [if_neg h1, if_neg h2]; simp, hdec⟩

theorem C8_universal_generate_witness :
    ∃ ext,
      universalGenerate hashStub "s".toList (fun u => u ≠ []) "http://x".toList
          (some "http://a/v.m3u8".toList) true true 0
        = ⟨200, some ⟨"http://x".toList ++ "/api/universal/stream/".toList
              ++ generateUniversalToken hashStub "s".toList "http://a/v.m3u8".toList
                  ⟨true, true, detectStreamType "http://a/v.m3u8".toList⟩ 0 ++ ext,
            detectStreamType "http://a/v.m3u8".toList, true, true, "http://a/v.m3u8".toList⟩⟩
      ∧ decodeUniversalToken hashStub "s".toList 0
          (generateUniversalToken hashStub "s".toList "http://a/v.m3u8".toList
            ⟨true, true, detectStreamType "http://a/v.m3u8".toList⟩ 0)
        = some ("http://a/v.m3u8".toList,
            ⟨true, true, detectStreamType "http://a/v.m3u8".toList⟩) :=
  C8_universal_generate hashStub_hex "s".toList "http://x".toList (fun u => u ≠ [])
    "http://a/v.m3u8".toList true true 0 (by decide) (by decide)

/-! ### The HLS manifest rewrite of the universal stream route -/

/-- `line.trim()`. -/
def jsTrim (s : Str) : Str :=
  ((s.dropWhile isJsSpace).reverse.dropWhile isJsSpace).reverse

/-- The `absoluteUrl` computation of the rewrite: a reference that already
carries an `http://`/`https://` scheme is used as-is, anything else gets the
manifest's base (`sourceUrl` up to its last `/`) prepended. -/
def resolveSegmentUrl (baseSourceUrl line : Str) : Str :=
  if leadsWith "http://".toList line || leadsWith "https://".toList line then line
  else baseSourceUrl ++ line

/-- One line of the rewrite: trim; keep blank and `#` lines (trimmed); replace
every other line by the proxy base plus a fresh segment token for the resolved
absolute URL. -/
def rewriteHlsLine (hash : Str → Str) (secret : Str) (baseSourceUrl baseProxyUrl : Str)
    (opts : UniOptions) (now : Nat) (line0 : Str) : Str :=
  if jsTrim line0 ≠ [] ∧ leadsWith "#".toList (jsTrim line0) = false then
    baseProxyUrl ++ "/api/universal/stream/".toList
      ++ generateUniversalToken hash secret (resolveSegmentUrl baseSourceUrl (jsTrim line0))
          ⟨opts.buffer, opts.proxy, "segment".toList⟩ now
  else jsTrim line0

/-- The whole-body rewrite: split on newlines, map, rejoin. -/
def rewriteHlsBody (hash : Str → Str) (secret : Str) (baseSourceUrl baseProxyUrl : Str)
    (opts : UniOptions) (now : Nat) (body : Str) : Str :=
  joinWith '\n'
    ((splitOnC '\n' body).map (rewriteHlsLine hash secret baseSourceUrl baseProxyUrl opts now))

/-- No field produced by `split` contains the separator. -/
theorem splitOnC_parts_sep_free (sep : Char) (s : Str) :
    ∀ p ∈ splitOnC sep s, sep ∉ p := by
  induction s with
  | nil =>
    intro p hp
    simp only [splitOnC, List.mem_singleton] at hp
    subst hp
    simp
  | cons c cs ih =>
    intro p hp
    simp only [splitOnC] at hp
    split at hp
    · rcases List.mem_cons.mp hp with rfl | hp
      · simp
      · exact ih p hp
    · rename_i hc
      rcases hq : splitOnC sep cs with _ | ⟨q, qs⟩
      · exact absurd hq (splitOnC_ne_nil sep cs)
      · rw [hq] at hp
        rcases List.mem_cons.mp hp with rfl | hp
        · intro hmem
          rcases List.mem_cons.mp hmem with rfl | hmem
          · exact hc rfl
          · exact ih q (hq ▸ List.mem_cons_self q qs) hmem
        · exact ih p (hq ▸ List.mem_cons_of_mem q hp)

/-- Trimming only removes characters. -/
theorem mem_jsTrim {c : Char} {s : Str} (h : c ∈ jsTrim s) : c ∈ s := by
  unfold jsTrim at h
  rw [List.mem_reverse] at h
  have h2 := (List.dropWhile_sublist isJsSpace).subset h
  rw [List.mem_reverse] at h2
  exact (List.dropWhile_sublist isJsSpace).subset h2

theorem digit62_ne_nl {d : Nat} (hd : d < 62) : digit62 d ≠ '\n' := by
  interval_cases d <;> decide

/-- Every character of a base-62 rendering is a base-62 digit. -/
theorem mem_numToBase62 {n : Nat} {c : Char} (hc : c ∈ numToBase62 n) :
    ∃ d, d < 62 ∧ c = digit62 d := by
  unfold numToBase62 at hc
  split at hc
  · simp only [List.mem_singleton] at hc
    exact ⟨0, by norm_num, by rw [hc]; rfl⟩
  · rcases numToBase62Aux_mem _ _ _ c hc with h | h
    · simp at h
    · exact h

/-- Universal tokens never contain a newline, so rewritten manifest lines
survive the final `join('\n')`/`split('\n')` round trip intact. -/
theorem nl_not_mem_uniToken {hash : Str → Str} (hh : HexDigest hash)
    (secret sourceUrl : Str) (opts : UniOptions) (now : Nat) :
    '\n' ∉ generateUniversalToken hash secret sourceUrl opts now := by
  intro h0
  have h : '\n' ∈ encStr sourceUrl
      ++ '.' :: ((if opts.buffer then '1' else '0') :: (if opts.proxy then '1' else '0')
        :: numToBase62 ((now + tokenExpiry) / 3600000) ++ '-' :: encStr opts.type)
      ++ '.' :: (hash (encStr sourceUrl
        ++ ':' :: ((if opts.buffer then '1' else '0') :: (if opts.proxy then '1' else '0')
          :: numToBase62 ((now + tokenExpiry) / 3600000) ++ '-' :: encStr opts.type)
        ++ ':' :: secret)).take 6 := h0
  rcases List.mem_append.mp h with h | h
  · rcases List.mem_append.mp h with h | h
    · rcases encStr_digits h with ⟨d, hd, he⟩
      exact digit62_ne_nl hd he.symm
    · rcases List.mem_cons.mp h with h | h
      · exact absurd h (by decide)
      · rcases List.mem_append.mp h with h | h
        · rcases List.mem_cons.mp h with h | h
          · revert h; split <;> decide
          · rcases List.mem_cons.mp h with h | h
            · revert h; split <;> decide
            · rcases mem_numToBase62 h with ⟨d, hd, he⟩
              exact digit62_ne_nl hd he.symm
        · rcases List.mem_cons.mp h with h | h
          · exact absurd h (by decide)
          · rcases encStr_digits h with ⟨d, hd, he⟩
            exact digit62_ne_nl hd he.symm
  · rcases List.mem_cons.mp h with h | h
    · exact absurd h (by decide)
    · have hx := hh _ _ ((List.take_sublist 6 _).subset h)
      revert hx
      decide

/-- A rewritten line never contains a newline (given the proxy base does
not). -/
theorem nl_not_mem_rewriteHlsLine {hash : Str → Str} (hh : HexDigest hash)
    (secret baseSourceUrl baseProxyUrl : Str) (opts : UniOptions) (now : Nat)
    {line : Str} (hl : '\n' ∉ line) (hnp : '\n' ∉ baseProxyUrl) :
    '\n' ∉ rewriteHlsLine hash secret baseSourceUrl baseProxyUrl opts now line := by
  unfold rewriteHlsLine
  split
  · intro h
    rcases List.mem_append.mp h with h | h
    · rcases List.mem_append.mp h with h | h
      · exact hnp h
      · revert h; decide
    · exact nl_not_mem_uniToken hh secret _ _ now h
  · intro h
    exact hl (mem_jsTrim h)

/-- C6: the HLS rewrite, line by line.  Splitting the rewritten body on
newlines recovers exactly the per-line rewrite of the input's lines (so the
line count is preserved); every line that is blank after trimming or starts
with `'#'` passes through TRIMMED — not byte-for-byte — in its position;
every other line becomes the proxy base plus `/api/universal/stream/` plus a
freshly minted segment token that decodes back to the resolved absolute URL
with the inherited buffer/proxy options; and a reference carrying an
`http://`/`https://` scheme is used as-is, never prefixed with the manifest
base. -/
theorem C6_hls_rewrite {hash : Str → Str} (hh : HexDigest hash)
    (secret baseSourceUrl baseProxyUrl : Str) (b p : Bool) (ty : Str) (now : Nat)
    (body : Str) (hnp : '\n' ∉ baseProxyUrl) :
    splitOnC '\n' (rewriteHlsBody hash secret baseSourceUrl baseProxyUrl ⟨b, p, ty⟩ now body)
      = (splitOnC '\n' body).map
          (rewriteHlsLine hash secret baseSourceUrl baseProxyUrl ⟨b, p, ty⟩ now)
    ∧ (splitOnC '\n'
          (rewriteHlsBody hash secret baseSourceUrl baseProxyUrl ⟨b, p, ty⟩ now body)).length
        = (splitOnC '\n' body).length
    ∧ (∀ l ∈ splitOnC '\n' body,
        jsTrim l = [] ∨ leadsWith "#".toList (jsTrim l) = true →
          rewriteHlsLine hash secret baseSourceUrl baseProxyUrl ⟨b, p, ty⟩ now l = jsTrim l)
    ∧ (∀ l ∈ splitOnC '\n' body,
        jsTrim l ≠ [] → leadsWith "#".toList (jsTrim l) = false →
          rewriteHlsLine hash secret baseSourceUrl baseProxyUrl ⟨b, p, ty⟩ now l
              = baseProxyUrl ++ "/api/universal/stream/".toList
                ++ generateUniversalToken hash secret
                    (resolveSegmentUrl baseSourceUrl (jsTrim l))
                    ⟨b, p, "segment".toList⟩ now
            ∧ decodeUniversalToken hash secret now
                (generateUniversalToken hash secret
                  (resolveSegmentUrl baseSourceUrl (jsTrim l))
                  ⟨b, p, "segment".toList⟩ now)
              = some (resolveSegmentUrl baseSourceUrl (jsTrim l), ⟨b, p, "segment".toList⟩))
    ∧ (∀ l : Str,
        leadsWith "http://".toList l = true ∨ leadsWith "https://".toList l = true →
          resolveSegmentUrl baseSourceUrl l = l) := by
  have hsplit : splitOnC '\n'
      (rewriteHlsBody hash secret baseSourceUrl baseProxyUrl ⟨b, p, ty⟩ now body)
      = (splitOnC '\n' body).map
          (rewriteHlsLine hash secret baseSourceUrl baseProxyUrl ⟨b, p, ty⟩ now) := by
    unfold rewriteHlsBody
    refine splitOnC_join ?_ ?_
    · intro h
      exact splitOnC_ne_nil '\n' body (List.map_eq_nil_iff.mp h)
    · intro q hq
      rcases List.mem_map.mp hq with ⟨l, hl, rfl⟩
      exact nl_not_mem_rewriteHlsLine hh secret baseSourceUrl baseProxyUrl ⟨b, p, ty⟩ now
        (splitOnC_parts_sep_free '\n' body l hl) hnp
  refine ⟨hsplit, by rw [hsplit, List.length_map], ?_, ?_, ?_⟩
  · intro l _ hpass
    unfold rewriteHlsLine
    rw [if_neg]
    rcases hpass with h | h
    · exact fun hc => hc.1 h
    · exact fun hc => Bool.noConfusion (h.symm.trans hc.2)
  · intro l _ hne hsharp
    constructor
    · unfold rewriteHlsLine
      rw [if_pos ⟨hne, hsharp⟩]
    · exact decodeUniversalToken_mk hh secret _ ⟨b, p, "segment".toList⟩ now now
        (Nat.div_le_div_right (Nat.le_add_right now tokenExpiry))
  · intro l hl
    have hcond : (leadsWith "http://".toList l || leadsWith "https://".toList l) = true := by
      rcases hl with h | h
      · rw [h]; rfl
      · rw [h, Bool.or_true]
    unfold resolveSegmentUrl
    rw [if_pos hcond]

theorem C6_hls_rewrite_witness :
    '\n' ∉ "http://x".toList
    ∧ splitOnC '\n' (rewriteHlsBody hashStub "s".toList "http://h/".toList "http://x".toList
          ⟨true, true, "HLS".toList⟩ 0 "#EXTM3U\nseg.ts".toList)
        = (splitOnC '\n' "#EXTM3U\nseg.ts".toList).map
            (rewriteHlsLine hashStub "s".toList "http://h/".toList "http://x".toList
              ⟨true, true, "HLS".toList⟩ 0) :=
  ⟨by decide,
    (C6_hls_rewrite hashStub_hex "s".toList "http://h/".toList "http://x".toList true true
      "HLS".toList 0 "#EXTM3U\nseg.ts".toList (by decide)).1⟩

/-- A directive line carrying trailing whitespace is NOT passed through
byte-for-byte: the rewrite trims it. -/
theorem C6_counterexample :
    rewriteHlsBody hashStub "s".toList [] [] ⟨true, true, "HLS".toList⟩ 0 "#EXTM3U ".toList
      = "#EXTM3U".toList
    ∧ "#EXTM3U".toList ≠ "#EXTM3U ".toList := by
  decide

end StreamFreely
